import Mathlib

/-!
Verification of `certbot_apache/_internal/parsernode_util.py`.

The main routine is `parameters_from_string`, a single-pass tokenizer that
splits a whitespace-separated directive-argument line into parameters,
honouring single/double quoting and backslash escaping, mirroring
apache httpd's `ap_getword_conf`.  The module also contains
`validate_kwargs`, a keyword-argument validation helper.

Python strings are embedded as `List Char`; the tokenizer state
(`words`, `word`, `escape`, `quote`) is an explicit structure threaded
through a left fold over the characters, exactly following the Python
loop body.  Python dictionaries (for `validate_kwargs`) are embedded as
association lists with unique keys, and the two `TypeError`s the source
can raise become constructors of an explicit result type.
-/

namespace ParsernodeUtil

/-- Characters for which Python's `str.isspace()` returns `True`
(ASCII whitespace, the C1 separators, and the Unicode space characters). -/
def pyIsSpace (c : Char) : Bool :=
  c == ' ' || c == '\t' || c == '\n' || c == '\x0b' || c == '\x0c' || c == '\r' ||
  c == '\x1c' || c == '\x1d' || c == '\x1e' || c == '\x1f' ||
  c == '\x85' || c == '\xa0' || c == '\u1680' ||
  ('\u2000' ≤ c && c ≤ '\u200A') ||
  c == '\u2028' || c == '\u2029' || c == '\u202F' || c == '\u205F' || c == '\u3000'

/-- The Python test `c in "\"\'"` from the source. -/
def isQuoteChar (c : Char) : Bool :=
  c == '\"' || c == '\''

/-- Python's `str.replace` specialised to a two-character pattern `[a, b]`
(the source only ever replaces the two-character patterns backslash-backslash
and backslash-quote): left-to-right scan, non-overlapping matches, each match
replaced by `r`. -/
def pyReplace2 (a b : Char) (r : List Char) : List Char → List Char
  | x :: y :: rest =>
    if x = a ∧ y = b then r ++ pyReplace2 a b r rest
    else x :: pyReplace2 a b r (y :: rest)
  | l => l

/-- The `word[1:-1].replace("\\\\", "\\").replace("\\" + quote, quote)` step
of the source, applied when a quoted span closes: `w` is `word[1:-1]` and `q`
is the active quote character. -/
def unescape (q : Char) (w : List Char) : List Char :=
  pyReplace2 '\\' q [q] (pyReplace2 '\\' '\\' ['\\'] w)

/-- The loop state of `parameters_from_string`: completed parameters,
the word buffer being accumulated, the escape flag and the active quote. -/
structure TokState where
  words  : List (List Char)
  word   : List Char
  escape : Bool
  quote  : Option Char
deriving Repr, DecidableEq

/-- Initial state: `words = []`, `word = ""`, `escape = False`, `quote = None`. -/
def initState : TokState := ⟨[], [], false, none⟩

/-- One iteration of the `for c in text` loop of `parameters_from_string`,
translated clause by clause from the Python body. -/
def step (s : TokState) (c : Char) : TokState :=
  let s1 : TokState :=
    if pyIsSpace c && s.quote.isNone then
      { s with words := if s.word ≠ [] then s.words ++ [s.word] else s.words,
               word := [] }
    else
      { s with word := s.word ++ [c] }
  let s2 : TokState :=
    if s1.quote.isNone && isQuoteChar c then
      { s1 with quote := some c }
    else if s1.quote = some c && !s1.escape then
      { s1 with words := s1.words ++ [unescape c ((s1.word.drop 1).dropLast)],
                word := [], quote := none }
    else s1
  { s2 with escape := !s.escape && c == '\\' }

/-- The `if word: words.append(word)` flush after the loop. -/
def finalize (s : TokState) : List (List Char) :=
  if s.word ≠ [] then s.words ++ [s.word] else s.words

/-- The loop state after `for c in text` has run on the `lstrip`ped input. -/
def scanState (text : List Char) : TokState :=
  (text.dropWhile pyIsSpace).foldl step initState

/-- `parameters_from_string`: lstrip the input, run the scan, flush the last
word.  The Python tuple result is embedded as an ordered list. -/
def parameters_from_string (text : List Char) : List (List Char) :=
  finalize (scanState text)

/-- String-level wrapper of `parameters_from_string`. -/
def tokenize (s : String) : List String :=
  (parameters_from_string s.data).map (fun w => String.mk w)

/-- A character is clean when it is neither whitespace nor a quote
character; clean characters are accumulated verbatim by the scan. -/
def cleanChar (c : Char) : Prop :=
  pyIsSpace c = false ∧ isQuoteChar c = false

instance : DecidablePred cleanChar := fun c => by
  unfold cleanChar; infer_instance

/-- While a quote is active the word buffer is non-empty and contains the
opening quote character. -/
def QuoteInv (s : TokState) : Prop :=
  ∀ q, s.quote = some q → s.word ≠ [] ∧ q ∈ s.word

/-- Join a sequence of words with a single-character separator between
consecutive words (used to state the round-trip property). -/
def joinWith (sep : Char) : List (List Char) → List Char
  | [] => []
  | [w] => w
  | w :: x :: ws => w ++ sep :: joinWith sep (x :: ws)

/-- Result of `validate_kwargs`: either the validated dictionary or one of
the two distinct `TypeError`s the source raises (a required key missing
from `kwargs`, or unrecognized keys left over); errors propagate to the
caller, nothing is recovered internally. -/
inductive KwResult (V : Type) where
  | ok (validated : List (String × V))
  | missingKey (name : String)
  | unknownKeys (names : List String)
deriving DecidableEq

/-- Python `kwargs.pop(name)`: the value together with the dictionary
without that key, or `none` (a `KeyError`) when the key is absent. -/
def popKw {V : Type} (kw : List (String × V)) (name : String) :
    Option (V × List (String × V)) :=
  match kw.lookup name with
  | some v => some (v, kw.filter (fun p => p.1 ≠ name))
  | none => none

/-- The loop of `validate_kwargs`: pop each required name in order
(`TypeError` on the first absent one), then `TypeError` if any keys remain,
else return the accumulated validated dictionary. -/
def validateLoop {V : Type} : List String → List (String × V) → List (String × V) → KwResult V
  | [], kw, acc => if kw.isEmpty then .ok acc else .unknownKeys (kw.map Prod.fst)
  | n :: rest, kw, acc =>
    match popKw kw n with
    | none => .missingKey n
    | some (v, kw2) => validateLoop rest kw2 (acc ++ [(n, v)])

/-- `validate_kwargs(kwargs, required_names)` from the source. -/
def validate_kwargs {V : Type} (kwargs : List (String × V))
    (required_names : List String) : KwResult V :=
  validateLoop required_names kwargs []

/-! ### Basic facts about the character classes -/

/-- Neither quote character is whitespace. -/
lemma pyIsSpace_eq_false_of_isQuoteChar {c : Char} (h : isQuoteChar c = true) :
    pyIsSpace c = false := by
  simp only [isQuoteChar, Bool.or_eq_true, beq_iff_eq] at h
  rcases h with rfl | rfl <;> decide

/-- No whitespace character is a quote character. -/
lemma isQuoteChar_eq_false_of_pyIsSpace {c : Char} (h : pyIsSpace c = true) :
    isQuoteChar c = false := by
  by_contra hq
  simp only [Bool.not_eq_false, isQuoteChar, Bool.or_eq_true, beq_iff_eq] at hq
  rcases hq with rfl | rfl <;> simp [pyIsSpace] at h

/-- No whitespace character is a backslash. -/
lemma not_backslash_of_pyIsSpace {c : Char} (h : pyIsSpace c = true) :
    (c == '\\') = false := by
  by_contra hb
  simp only [Bool.not_eq_false, beq_iff_eq] at hb
  subst hb
  simp [pyIsSpace] at h

/-- Neither quote character is a backslash. -/
lemma not_backslash_of_isQuoteChar {c : Char} (h : isQuoteChar c = true) :
    (c == '\\') = false := by
  simp only [isQuoteChar, Bool.or_eq_true, beq_iff_eq] at h
  rcases h with rfl | rfl <;> decide

/-! ### Case analysis of one loop iteration -/

/-- Outside a quote, a whitespace character flushes a non-empty word,
discards the whitespace, and clears the escape flag. -/
lemma step_whitespace (s : TokState) (c : Char) (hq : s.quote = none)
    (hc : pyIsSpace c = true) :
    step s c = ⟨if s.word ≠ [] then s.words ++ [s.word] else s.words, [], false, none⟩ := by
  obtain ⟨ws, w, e, qt⟩ := s
  subst hq
  simp [step, hc, isQuoteChar_eq_false_of_pyIsSpace hc, not_backslash_of_pyIsSpace hc]

/-- Outside a quote, an ordinary character (not whitespace, not a quote
character) is appended to the word buffer. -/
lemma step_plain (s : TokState) (c : Char) (hq : s.quote = none)
    (hs : pyIsSpace c = false) (hqc : isQuoteChar c = false) :
    step s c = ⟨s.words, s.word ++ [c], !s.escape && c == '\\', none⟩ := by
  obtain ⟨ws, w, e, qt⟩ := s
  subst hq
  simp [step, hs, hqc]

/-- Outside a quote, a quote character is appended to the word buffer and
becomes the active quote. -/
lemma step_open (s : TokState) (c : Char) (hq : s.quote = none)
    (hqc : isQuoteChar c = true) :
    step s c = ⟨s.words, s.word ++ [c], false, some c⟩ := by
  obtain ⟨ws, w, e, qt⟩ := s
  subst hq
  simp [step, hqc, pyIsSpace_eq_false_of_isQuoteChar hqc, not_backslash_of_isQuoteChar hqc]

/-- Inside a quote, a character different from the active quote is appended
as ordinary literal text: no flush, no emit, quote unchanged. -/
lemma step_inquote_other (s : TokState) (q c : Char) (hq : s.quote = some q)
    (hne : c ≠ q) :
    step s c = ⟨s.words, s.word ++ [c], !s.escape && c == '\\', some q⟩ := by
  obtain ⟨ws, w, e, qt⟩ := s
  subst hq
  simp [step, Ne.symm hne]

/-- Inside a quote with the escape flag set, any character (the active quote
included) is appended as literal text and the escape flag clears. -/
lemma step_inquote_escaped (s : TokState) (q c : Char) (hq : s.quote = some q)
    (he : s.escape = true) :
    step s c = ⟨s.words, s.word ++ [c], false, some q⟩ := by
  obtain ⟨ws, w, e, qt⟩ := s
  subst hq
  cases he
  by_cases hc : q = c <;> simp [step, hc]

/-- First and last element of the closing-time buffer: `word[1:-1]` of the
buffer after the closing quote was appended is `word.drop 1` of the buffer
before it. -/
lemma drop_one_dropLast (w : List Char) (q : Char) :
    ((w ++ [q]).tail).dropLast = w.tail := by
  cases w with
  | nil => simp
  | cons a t => simp

/-- Inside a quote, the unescaped active quote character closes the span:
the buffered word minus its delimiters is un-escaped and emitted, and the
buffer and quote reset. -/
lemma step_close (s : TokState) (q : Char) (hq : s.quote = some q)
    (he : s.escape = false) :
    step s q = ⟨s.words ++ [unescape q (s.word.drop 1)], [], !s.escape && q == '\\', none⟩ := by
  obtain ⟨ws, w, e, qt⟩ := s
  subst hq
  cases he
  have hsp : pyIsSpace q = false ∨ pyIsSpace q = true := by
    cases pyIsSpace q <;> simp
  rcases hsp with hsp | hsp <;>
    simp [step, hsp, drop_one_dropLast]

/-- The escape flag after any iteration is true exactly when the character
was a backslash and the previous escape flag was false. -/
lemma step_escape (s : TokState) (c : Char) :
    (step s c).escape = (!s.escape && c == '\\') := by
  rfl

/-! ### Scanning runs of ordinary characters -/

/-- Folding the loop body over a run of clean characters outside a quote
appends the run to the word buffer and emits nothing. -/
lemma foldl_clean (cs : List Char) :
    ∀ (ws : List (List Char)) (w : List Char) (e : Bool),
      (∀ c ∈ cs, cleanChar c) →
      ∃ e2, List.foldl step ⟨ws, w, e, none⟩ cs = ⟨ws, w ++ cs, e2, none⟩ := by
  induction cs with
  | nil => intro ws w e _; exact ⟨e, by simp⟩
  | cons c cs ih =>
    intro ws w e h
    obtain ⟨hc, hcs⟩ := List.forall_mem_cons.mp h
    obtain ⟨e2, he2⟩ := ih ws (w ++ [c]) (!e && c == '\\') hcs
    refine ⟨e2, ?_⟩
    rw [List.foldl_cons, step_plain ⟨ws, w, e, none⟩ c rfl hc.1 hc.2]
    rw [he2]
    simp

/-! ### The quote invariant: an open quote sits inside the word buffer -/

lemma quoteInv_step {s : TokState} (h : QuoteInv s) (c : Char) :
    QuoteInv (step s c) := by
  rcases hq : s.quote with _ | q0
  · rcases hqc : isQuoteChar c with _ | _
    · rcases hsp : pyIsSpace c with _ | _
      · rw [step_plain s c hq hsp hqc]; intro q hqq; simp at hqq
      · rw [step_whitespace s c hq hsp]; intro q hqq; simp at hqq
    · rw [step_open s c hq hqc]
      intro q hqq
      simp only [Option.some.injEq] at hqq
      subst hqq
      simp
  · by_cases hc : c = q0
    · subst hc
      rcases he : s.escape with _ | _
      · rw [step_close s c hq he]; intro q hqq; simp at hqq
      · rw [step_inquote_escaped s c c hq he]
        intro q hqq
        simp only [Option.some.injEq] at hqq
        subst hqq
        exact ⟨by simp, by simp⟩
    · rw [step_inquote_other s q0 c hq hc]
      intro q hqq
      simp only [Option.some.injEq] at hqq
      subst hqq
      obtain ⟨-, hmem⟩ := h q0 hq
      exact ⟨by simp, by simp [hmem]⟩

lemma quoteInv_foldl (cs : List Char) :
    ∀ (s : TokState), QuoteInv s → QuoteInv (List.foldl step s cs) := by
  induction cs with
  | nil => intro s h; simpa using h
  | cons c cs ih =>
    intro s h
    rw [List.foldl_cons]
    exact ih _ (quoteInv_step h c)

/-- The invariant holds for the state left behind by the scan of any input. -/
lemma quoteInv_scanState (text : List Char) : QuoteInv (scanState text) := by
  unfold scanState
  apply quoteInv_foldl
  intro q hq
  simp [initState] at hq

/-! ### Joining words with single spaces -/

/-- Scanning the space-joined image of non-empty clean words from a
quiescent state emits exactly those words after the final flush. -/
lemma finalize_foldl_join (ws : List (List Char)) :
    ∀ (acc : List (List Char)) (e : Bool),
      (∀ w ∈ ws, w ≠ [] ∧ ∀ c ∈ w, cleanChar c) →
      finalize (List.foldl step ⟨acc, [], e, none⟩ (joinWith ' ' ws)) = acc ++ ws := by
  induction ws with
  | nil => intro acc e _; simp [joinWith, finalize]
  | cons w ws ih =>
    intro acc e h
    obtain ⟨⟨hw, hwc⟩, hws⟩ := List.forall_mem_cons.mp h
    cases ws with
    | nil =>
      obtain ⟨e2, he2⟩ := foldl_clean w acc [] e hwc
      simp only [joinWith]
      rw [he2]
      simp [finalize, hw]
    | cons x ws =>
      obtain ⟨e2, he2⟩ := foldl_clean w acc [] e hwc
      have hsplit : joinWith ' ' (w :: x :: ws) = w ++ ' ' :: joinWith ' ' (x :: ws) := rfl
      rw [hsplit, List.foldl_append, he2, List.foldl_cons,
        step_whitespace ⟨acc, [] ++ w, e2, none⟩ ' ' rfl (by decide)]
      simp only [List.nil_append, ne_eq, hw, not_false_iff, if_pos, if_neg]
      rw [ih (acc ++ [w]) false hws]
      simp

/-- Tokenizing the space-join of non-empty clean words recovers the words. -/
lemma tok_join (ws : List (List Char))
    (h : ∀ w ∈ ws, w ≠ [] ∧ ∀ c ∈ w, cleanChar c) :
    parameters_from_string (joinWith ' ' ws) = ws := by
  unfold parameters_from_string scanState
  have hdw : (joinWith ' ' ws).dropWhile pyIsSpace = joinWith ' ' ws := by
    cases ws with
    | nil => simp [joinWith]
    | cons w ws =>
      obtain ⟨hne, hclean⟩ := h w (by simp)
      cases w with
      | nil => cases hne rfl
      | cons c t =>
        have hc : cleanChar c := hclean c (by simp)
        cases ws with
        | nil => simp [joinWith, List.dropWhile_cons, hc.1]
        | cons x xs =>
          show List.dropWhile pyIsSpace ((c :: t) ++ ' ' :: joinWith ' ' (x :: xs)) = _
          rw [List.cons_append, List.dropWhile_cons]
          simp only [hc.1, Bool.false_eq_true, if_false]
          rfl
  rw [hdw]
  have hj := finalize_foldl_join ws [] false h
  simpa [initState] using hj

/-! ### Lemmas about `validate_kwargs` -/

/-- Popping one key does not disturb lookups of other keys. -/
lemma lookup_filter_ne {V : Type} (kw : List (String × V)) (n m : String)
    (h : m ≠ n) :
    (kw.filter (fun p => p.1 ≠ n)).lookup m = kw.lookup m := by
  induction kw with
  | nil => simp
  | cons p kw ih =>
    obtain ⟨k, v⟩ := p
    rw [List.filter_cons]
    by_cases hk : k = n
    · subst hk
      have hb : (m == k) = false := beq_eq_false_iff_ne.mpr h
      rw [if_neg (by simp)]
      rw [ih]
      simp [List.lookup, hb]
    · rw [if_pos (by simp [hk])]
      by_cases hm : m = k
      · subst hm
        simp [List.lookup]
      · have hb : (m == k) = false := beq_eq_false_iff_ne.mpr hm
        simpa [List.lookup, hb] using ih

/-- Popping a key and then discarding the other required keys is the same
as discarding all required keys at once. -/
lemma filter_pop_comm {V : Type} (kw : List (String × V)) (n : String)
    (rest : List String) :
    (kw.filter (fun p => p.1 ≠ n)).filter (fun p => ¬ p.1 ∈ rest) =
      kw.filter (fun p => ¬ p.1 ∈ n :: rest) := by
  rw [List.filter_filter]
  apply List.filter_congr
  intro a _
  by_cases h1 : a.1 = n <;> by_cases h2 : a.1 ∈ rest <;> simp [h1, h2]

/-- If some required name is absent, the loop reports a missing key that is
itself a required name absent from the dictionary. -/
lemma validateLoop_missing {V : Type} :
    ∀ (req : List String) (kw acc : List (String × V)), req.Nodup →
      (∃ n ∈ req, kw.lookup n = none) →
      ∃ m ∈ req, kw.lookup m = none ∧ validateLoop req kw acc = .missingKey m := by
  intro req
  induction req with
  | nil => intro kw acc _ h; obtain ⟨n, hn, -⟩ := h; simp at hn
  | cons n rest ih =>
    intro kw acc hnd h
    rcases hl : kw.lookup n with _ | v
    · exact ⟨n, by simp, hl, by simp [validateLoop, popKw, hl]⟩
    · obtain ⟨n2, hn2, hln2⟩ := h
      have hne : n2 ≠ n := by
        rintro rfl; rw [hl] at hln2; cases hln2
      have hn2r : n2 ∈ rest := by
        rcases List.mem_cons.mp hn2 with rfl | h2
        · exact absurd rfl hne
        · exact h2
      have hlf : (kw.filter (fun p => p.1 ≠ n)).lookup n2 = none := by
        rw [lookup_filter_ne kw n n2 hne]; exact hln2
      obtain ⟨m, hm, hlm, hgo⟩ := ih (kw.filter (fun p => p.1 ≠ n)) (acc ++ [(n, v)])
        (List.nodup_cons.mp hnd).2 ⟨n2, hn2r, hlf⟩
      have hmn : m ≠ n := by
        rintro rfl; exact (List.nodup_cons.mp hnd).1 hm
      refine ⟨m, by simp [hm], ?_, ?_⟩
      · rw [← lookup_filter_ne kw n m hmn]; exact hlm
      · simpa [validateLoop, popKw, hl] using hgo

/-- If every required name is present and nothing is left over, the loop
returns the required names in order, each with its looked-up value. -/
lemma validateLoop_ok {V : Type} :
    ∀ (req : List String) (kw acc : List (String × V)), req.Nodup →
      (∀ n ∈ req, (kw.lookup n).isSome) →
      kw.filter (fun p => ¬ p.1 ∈ req) = [] →
      ∃ vs, validateLoop req kw acc = .ok (acc ++ vs) ∧ vs.map Prod.fst = req ∧
        ∀ p ∈ vs, kw.lookup p.1 = some p.2 := by
  intro req
  induction req with
  | nil =>
    intro kw acc _ _ hleft
    have hkw : kw = [] := by simpa using hleft
    subst hkw
    exact ⟨[], by simp [validateLoop], rfl, by simp⟩
  | cons n rest ih =>
    intro kw acc hnd hall hleft
    have hn := hall n (by simp)
    rcases hl : kw.lookup n with _ | v
    · rw [hl] at hn; cases hn
    · have hrest : ∀ m ∈ rest, ((kw.filter (fun p => p.1 ≠ n)).lookup m).isSome := by
        intro m hm
        have hmn : m ≠ n := by
          rintro rfl; exact (List.nodup_cons.mp hnd).1 hm
        rw [lookup_filter_ne kw n m hmn]
        exact hall m (by simp [hm])
      have hleft2 : (kw.filter (fun p => p.1 ≠ n)).filter (fun p => ¬ p.1 ∈ rest) = [] := by
        rw [filter_pop_comm]; exact hleft
      obtain ⟨vs, hgo, hmap, hvals⟩ := ih (kw.filter (fun p => p.1 ≠ n)) (acc ++ [(n, v)])
        (List.nodup_cons.mp hnd).2 hrest hleft2
      refine ⟨(n, v) :: vs, ?_, by simp [hmap], ?_⟩
      · simpa [validateLoop, popKw, hl] using hgo
      · intro p hp
        rcases List.mem_cons.mp hp with rfl | hp2
        · exact hl
        · have hp1 : p.1 ∈ rest := by
            rw [← hmap]; exact List.mem_map_of_mem Prod.fst hp2
          have hpn : p.1 ≠ n := by
            rintro he; exact (List.nodup_cons.mp hnd).1 (he ▸ hp1)
          rw [← lookup_filter_ne kw n p.1 hpn]
          exact hvals p hp2

/-- If every required name is present but unrecognized keys remain after the
pops, the loop reports exactly those keys, in dictionary order. -/
lemma validateLoop_unknown {V : Type} :
    ∀ (req : List String) (kw acc : List (String × V)), req.Nodup →
      (∀ n ∈ req, (kw.lookup n).isSome) →
      kw.filter (fun p => ¬ p.1 ∈ req) ≠ [] →
      validateLoop req kw acc =
        .unknownKeys ((kw.filter (fun p => ¬ p.1 ∈ req)).map Prod.fst) := by
  intro req
  induction req with
  | nil =>
    intro kw acc _ _ hleft
    have hkw : kw.filter (fun p => ¬ p.1 ∈ ([] : List String)) = kw := by
      apply List.filter_eq_self.mpr; intro a _; simp
    rw [hkw] at hleft ⊢
    have hne : kw.isEmpty = false := by
      cases kw with
      | nil => exact absurd rfl hleft
      | cons p kw => rfl
    simp [validateLoop, hne]
  | cons n rest ih =>
    intro kw acc hnd hall hleft
    have hn := hall n (by simp)
    rcases hl : kw.lookup n with _ | v
    · rw [hl] at hn; cases hn
    · have hrest : ∀ m ∈ rest, ((kw.filter (fun p => p.1 ≠ n)).lookup m).isSome := by
        intro m hm
        have hmn : m ≠ n := by
          rintro rfl; exact (List.nodup_cons.mp hnd).1 hm
        rw [lookup_filter_ne kw n m hmn]
        exact hall m (by simp [hm])
      have hleft2 : (kw.filter (fun p => p.1 ≠ n)).filter (fun p => ¬ p.1 ∈ rest) ≠ [] := by
        rw [filter_pop_comm]; exact hleft
      have hgo := ih (kw.filter (fun p => p.1 ≠ n)) (acc ++ [(n, v)])
        (List.nodup_cons.mp hnd).2 hrest hleft2
      rw [filter_pop_comm] at hgo
      simpa [validateLoop, popKw, hl] using hgo

/-! ### Claim theorems -/

/-- C1: when a quoted span closes (the scan sees the active quote character
while the escape flag is false), the tokenizer immediately emits, as its own
separate parameter, the buffered word with its first and last characters
dropped (the delimiting quotes), with backslash-backslash collapsed to one
backslash and backslash-quote to a bare quote, and resets the word buffer to
empty and the active quote to none; in particular
`tokenize "parameter1 'parameter two'" = ["parameter1", "parameter two"]`.
The step-level statement holds for every state, hence for every input and
every quoted span in it, including spans whose opening quote was preceded by
non-whitespace characters in the same buffered word. -/
theorem quoted_close_emits_param :
    (∀ (s : TokState) (q : Char), isQuoteChar q = true → s.quote = some q →
      s.escape = false →
      step s q = ⟨s.words ++ [unescape q (s.word.drop 1)], [], false, none⟩) ∧
    tokenize "parameter1 'parameter two'" = ["parameter1", "parameter two"] := by
  constructor
  · intro s q hqc hq he
    rw [step_close s q hq he, he]
    rw [not_backslash_of_isQuoteChar hqc]
    simp
  · decide

/-- Witness for C1: closing a single-quoted span from a concrete mid-scan
state emits the unescaped span contents. -/
theorem quoted_close_emits_param_witness :
    isQuoteChar '\'' = true ∧
    (⟨[], ['\'', 'i', 't', '\\', '\'', 's'], false, some '\''⟩ : TokState).quote = some '\'' ∧
    (⟨[], ['\'', 'i', 't', '\\', '\'', 's'], false, some '\''⟩ : TokState).escape = false ∧
    step ⟨[], ['\'', 'i', 't', '\\', '\'', 's'], false, some '\''⟩ '\'' =
      ⟨[['i', 't', '\'', 's']], [], false, none⟩ := by
  refine ⟨by decide, rfl, rfl, ?_⟩
  have h := quoted_close_emits_param.1
    ⟨[], ['\'', 'i', 't', '\\', '\'', 's'], false, some '\''⟩ '\'' (by decide) rfl rfl
  rw [h]
  decide

/-- C2: `parameters_from_string` is a total function: for every input it
terminates and returns an ordered, possibly-empty sequence of strings, with
no error outcome in its type — including the empty string and inputs with
malformed or unterminated quoting. -/
theorem tokenize_total :
    (∀ s : String, ∃ ws : List String, tokenize s = ws) ∧
    tokenize "" = [] ∧
    tokenize "'malformed \\" = ["'malformed \\"] :=
  ⟨fun s => ⟨tokenize s, rfl⟩, by decide, by decide⟩

/-- C3: the two un-escape rewrites apply exactly to the contents of closed
quoted spans and to nothing else: `tokenize "'it\'s'" = ["it's"]`, and every
non-empty input free of whitespace and quote characters (bare backslashes
allowed) tokenizes to itself as a single parameter, backslashes intact. -/
theorem escapes_only_in_quotes :
    tokenize "'it\\'s'" = ["it's"] ∧
    (∀ s : List Char, s ≠ [] → (∀ c ∈ s, cleanChar c) →
      parameters_from_string s = [s]) := by
  constructor
  · decide
  · intro s hne h
    cases s with
    | nil => exact absurd rfl hne
    | cons c cs =>
      have hc : cleanChar c := h c (by simp)
      unfold parameters_from_string scanState
      rw [List.dropWhile_cons]
      rw [if_neg (by simp [hc.1])]
      obtain ⟨e2, he2⟩ := foldl_clean (c :: cs) [] [] false h
      have hinit : initState = (⟨[], [], false, none⟩ : TokState) := rfl
      rw [hinit, he2]
      simp [finalize]

/-- Witness for C3: a backslash-bearing unquoted word is returned verbatim. -/
theorem escapes_only_in_quotes_witness :
    (['p', '\\', '\\', 'q'] : List Char) ≠ [] ∧
    (∀ c ∈ (['p', '\\', '\\', 'q'] : List Char), cleanChar c) ∧
    parameters_from_string ['p', '\\', '\\', 'q'] = [['p', '\\', '\\', 'q']] :=
  ⟨by decide, by decide, escapes_only_in_quotes.2 _ (by decide) (by decide)⟩

/-- C4: scanner invariants.  At most one quote is active at a time (the
`quote` field holds at most one character by construction); a character
different from the active quote is ordinary literal text inside a quote
(appended, nothing emitted, quote unchanged) — so an active quote is closed
only by the identical character; an escaped character never closes the
quote; and after every step the escape flag is true exactly when the
character just read was a backslash and the previous flag was false (so
after two consecutive backslashes the flag is false). -/
theorem scanner_quote_escape_invariants :
    (∀ (s : TokState) (q c : Char), s.quote = some q → c ≠ q →
      step s c = ⟨s.words, s.word ++ [c], !s.escape && c == '\\', some q⟩) ∧
    (∀ (s : TokState) (q c : Char), s.quote = some q → s.escape = true →
      step s c = ⟨s.words, s.word ++ [c], false, some q⟩) ∧
    (∀ (s : TokState) (c : Char), (step s c).escape = (!s.escape && c == '\\')) :=
  ⟨step_inquote_other, step_inquote_escaped, step_escape⟩

/-- Witness for C4: a double quote inside a single-quoted span is literal
text; an escaped single quote does not close the span; two consecutive
backslashes leave the escape flag false. -/
theorem scanner_quote_escape_invariants_witness :
    ((⟨[], ['\''], false, some '\''⟩ : TokState).quote = some '\'' ∧ '\"' ≠ '\'' ∧
      step ⟨[], ['\''], false, some '\''⟩ '\"' =
        ⟨[], ['\'', '\"'], false, some '\''⟩) ∧
    ((⟨[], ['\'', '\\'], true, some '\''⟩ : TokState).quote = some '\'' ∧
      (⟨[], ['\'', '\\'], true, some '\''⟩ : TokState).escape = true ∧
      step ⟨[], ['\'', '\\'], true, some '\''⟩ '\'' =
        ⟨[], ['\'', '\\', '\''], false, some '\''⟩) ∧
    (step (step ⟨[], [], false, none⟩ '\\') '\\').escape =
      (!(step ⟨[], [], false, none⟩ '\\').escape && '\\' == '\\') := by
  refine ⟨⟨rfl, by decide, ?_⟩, ⟨rfl, rfl, ?_⟩, ?_⟩
  · have h := scanner_quote_escape_invariants.1 ⟨[], ['\''], false, some '\''⟩ '\'' '\"'
      rfl (by decide)
    rw [h]; decide
  · have h := scanner_quote_escape_invariants.2.1 ⟨[], ['\'', '\\'], true, some '\''⟩ '\'' '\''
      rfl rfl
    rw [h]
    decide
  · exact scanner_quote_escape_invariants.2.2 (step ⟨[], [], false, none⟩ '\\') '\\'

/-- C5: concrete input/output behaviour on the spec's examples: empty and
whitespace-only inputs give the empty sequence, plain words split on spaces,
and a double-quoted span keeps its inner space. -/
theorem tokenize_examples :
    tokenize "" = [] ∧
    tokenize "   " = [] ∧
    tokenize "a b c" = ["a", "b", "c"] ∧
    tokenize "a \"b c\" d" = ["a", "b c", "d"] :=
  ⟨by decide, by decide, by decide, by decide⟩

/-- C6: a quoted span that never closes raises no error: the scan ends with
the quote still active, and the final buffered word — which still contains
the unconsumed opening quote character — is emitted verbatim as the last
parameter with no un-escaping applied; e.g. `tokenize "'abc" = ["'abc"]`. -/
theorem unterminated_quote_literal :
    (∀ (text : List Char) (q : Char), (scanState text).quote = some q →
      parameters_from_string text = (scanState text).words ++ [(scanState text).word] ∧
      (scanState text).word ≠ [] ∧ q ∈ (scanState text).word) ∧
    tokenize "'abc" = ["'abc"] := by
  constructor
  · intro text q hq
    obtain ⟨hne, hmem⟩ := quoteInv_scanState text q hq
    refine ⟨?_, hne, hmem⟩
    unfold parameters_from_string finalize
    rw [if_pos hne]
  · decide

/-- Witness for C6: `'abc` leaves the single quote active and is emitted as
the literal final word containing the opening quote. -/
theorem unterminated_quote_literal_witness :
    (scanState ['\'', 'a', 'b', 'c']).quote = some '\'' ∧
    (parameters_from_string ['\'', 'a', 'b', 'c'] =
        (scanState ['\'', 'a', 'b', 'c']).words ++ [(scanState ['\'', 'a', 'b', 'c']).word] ∧
      (scanState ['\'', 'a', 'b', 'c']).word ≠ [] ∧
      '\'' ∈ (scanState ['\'', 'a', 'b', 'c']).word) :=
  ⟨by decide, unterminated_quote_literal.1 ['\'', 'a', 'b', 'c'] '\'' (by decide)⟩

/-- C7 counterexample: the claim fails at the input `''` (two single
quotes).  Its tokenization is the one-element sequence containing the empty
word, whose characters vacuously include no whitespace and no quote
characters, yet joining with single spaces and re-tokenizing yields the
empty sequence, not the original one. -/
theorem roundtrip_counterexample :
    parameters_from_string ['\'', '\''] = [[]] ∧
    (∀ w ∈ parameters_from_string ['\'', '\''], ∀ c ∈ w, cleanChar c) ∧
    parameters_from_string (joinWith ' ' (parameters_from_string ['\'', '\''])) ≠
      parameters_from_string ['\'', '\''] := by
  refine ⟨by decide, ?_, by decide⟩
  intro w hw c hc
  simp only [show parameters_from_string ['\'', '\''] = [[]] from by decide,
    List.mem_singleton] at hw
  subst hw
  simp at hc

/-- C7 (amended: the words must also be non-empty): for every input string
whose tokenize output consists of non-empty words containing no whitespace
and no quote characters, joining that output with single spaces and
re-tokenizing reproduces exactly the same sequence. -/
theorem roundtrip_amended (s : List Char)
    (h : ∀ w ∈ parameters_from_string s, w ≠ [] ∧ ∀ c ∈ w, cleanChar c) :
    parameters_from_string (joinWith ' ' (parameters_from_string s)) =
      parameters_from_string s :=
  tok_join (parameters_from_string s) h

/-- Witness for C7 (amended), at the input `a b`. -/
theorem roundtrip_amended_witness :
    (∀ w ∈ parameters_from_string ['a', ' ', 'b'], w ≠ [] ∧ ∀ c ∈ w, cleanChar c) ∧
    parameters_from_string (joinWith ' ' (parameters_from_string ['a', ' ', 'b'])) =
      parameters_from_string ['a', ' ', 'b'] :=
  ⟨by decide, roundtrip_amended ['a', ' ', 'b'] (by decide)⟩

/-- C8: `validate_kwargs` (with distinct required names, as at every call
site) signals two distinguishable errors, never recovered internally: if
some required name is absent from `kwargs` it reports a missing required
key (itself a required name absent from `kwargs`); if all required names
are present but keys remain after they are popped, it reports exactly the
unrecognized keys; and when neither occurs it returns the dictionary
mapping exactly the required names, in order, to their popped values. -/
theorem validate_kwargs_spec {V : Type} (kw : List (String × V))
    (required : List String) (hnd : required.Nodup) :
    ((∃ n ∈ required, kw.lookup n = none) →
      ∃ m ∈ required, kw.lookup m = none ∧
        validate_kwargs kw required = .missingKey m) ∧
    ((∀ n ∈ required, (kw.lookup n).isSome) →
      (kw.filter (fun p => ¬ p.1 ∈ required) ≠ [] →
        validate_kwargs kw required =
          .unknownKeys ((kw.filter (fun p => ¬ p.1 ∈ required)).map Prod.fst)) ∧
      (kw.filter (fun p => ¬ p.1 ∈ required) = [] →
        ∃ vs, validate_kwargs kw required = .ok vs ∧ vs.map Prod.fst = required ∧
          ∀ p ∈ vs, kw.lookup p.1 = some p.2)) := by
  refine ⟨fun h => validateLoop_missing required kw [] hnd h, fun hall => ⟨?_, ?_⟩⟩
  · intro hleft
    exact validateLoop_unknown required kw [] hnd hall hleft
  · intro hleft
    obtain ⟨vs, hok, hmap, hvals⟩ := validateLoop_ok required kw [] hnd hall hleft
    exact ⟨vs, by simpa using hok, hmap, hvals⟩

/-- Witness for C8: a missing required key and an unknown leftover key on
concrete dictionaries, plus the success case returning the popped values. -/
theorem validate_kwargs_spec_witness :
    validate_kwargs [("ancestor", (1 : Nat)), ("extra", 3)] ["ancestor", "dirty"] =
        .missingKey "dirty" ∧
    validate_kwargs [("ancestor", (1 : Nat)), ("extra", 3)] ["ancestor"] =
        .unknownKeys ["extra"] ∧
    validate_kwargs [("dirty", (2 : Nat)), ("ancestor", 1)] ["ancestor", "dirty"] =
        .ok [("ancestor", 1), ("dirty", 2)] := by
  refine ⟨?_, ?_, ?_⟩
  · obtain ⟨m, hm, hlm, heq⟩ :=
      (validate_kwargs_spec [("ancestor", (1 : Nat)), ("extra", 3)]
        ["ancestor", "dirty"] (by decide)).1 ⟨"dirty", by decide, by decide⟩
    have hmd : m = "dirty" := by
      rcases List.mem_cons.mp hm with rfl | hm2
      · cases hlm
      · simpa using hm2
    exact hmd ▸ heq
  · have h := ((validate_kwargs_spec [("ancestor", (1 : Nat)), ("extra", 3)]
      ["ancestor"] (by decide)).2 (by decide)).1 (by decide)
    rw [h]; decide
  · obtain ⟨vs, hok, hmap, hvals⟩ := ((validate_kwargs_spec
      [("dirty", (2 : Nat)), ("ancestor", 1)] ["ancestor", "dirty"] (by decide)).2
      (by decide)).2 (by decide)
    decide

/-- C9: a matched empty quoted span is emitted as an empty-string
parameter (`''` and `""` both tokenize to one empty string), while
unquoted words are flushed only when non-empty, both at whitespace and at
end-of-input — so empty output strings originate only from the
quoted-span close step. -/
theorem empty_param_only_from_quotes :
    tokenize "''" = [""] ∧
    tokenize "\"\"" = [""] ∧
    (∀ (s : TokState) (c : Char), s.quote = none → pyIsSpace c = true →
      (step s c).words = s.words ++ (if s.word = [] then [] else [s.word]) ∧
      (step s c).word = []) ∧
    (∀ s : TokState, s.word = [] → finalize s = s.words) := by
  refine ⟨by decide, by decide, ?_, ?_⟩
  · intro s c hq hc
    rw [step_whitespace s c hq hc]
    refine ⟨?_, rfl⟩
    by_cases hw : s.word = [] <;> simp [hw]
  · intro s hw
    simp [finalize, hw]

/-- Witness for C9: whitespace over an empty buffer emits nothing, and the
end-of-input flush of an empty buffer emits nothing. -/
theorem empty_param_only_from_quotes_witness :
    ((⟨[['a']], [], false, none⟩ : TokState).quote = none ∧ pyIsSpace ' ' = true ∧
      (step ⟨[['a']], [], false, none⟩ ' ').words =
          [['a']] ++ (if ([] : List Char) = [] then [] else [[]]) ∧
      (step ⟨[['a']], [], false, none⟩ ' ').word = []) ∧
    ((⟨[['a']], [], false, none⟩ : TokState).word = [] ∧
      finalize ⟨[['a']], [], false, none⟩ = [['a']]) :=
  ⟨⟨rfl, by decide, (empty_param_only_from_quotes.2.2.1
      ⟨[['a']], [], false, none⟩ ' ' rfl (by decide))⟩,
    ⟨rfl, empty_param_only_from_quotes.2.2.2 ⟨[['a']], [], false, none⟩ rfl⟩⟩

/-- C10: outside any active quote a whitespace character always terminates
the current word, even when the escape flag was set by an immediately
preceding backslash — a backslash never escapes whitespace; in particular
`tokenize "a\ b" = ["a\", "b"]`. -/
theorem whitespace_splits_despite_escape :
    (∀ (s : TokState) (c : Char), s.quote = none → pyIsSpace c = true →
      (step s c).word = [] ∧ (step s c).escape = false) ∧
    tokenize "a\\ b" = ["a\\", "b"] := by
  refine ⟨?_, by decide⟩
  intro s c hq hc
  rw [step_whitespace s c hq hc]
  exact ⟨rfl, rfl⟩

/-- Witness for C10: a space arriving with the escape flag set (set by the
backslash just appended) still flushes the word. -/
theorem whitespace_splits_despite_escape_witness :
    (⟨[], ['a', '\\'], true, none⟩ : TokState).quote = none ∧ pyIsSpace ' ' = true ∧
    (step ⟨[], ['a', '\\'], true, none⟩ ' ').word = [] ∧
    (step ⟨[], ['a', '\\'], true, none⟩ ' ').escape = false :=
  ⟨rfl, by decide,
    (whitespace_splits_despite_escape.1 ⟨[], ['a', '\\'], true, none⟩ ' ' rfl (by decide)).1,
    (whitespace_splits_despite_escape.1 ⟨[], ['a', '\\'], true, none⟩ ' ' rfl (by decide)).2⟩

end ParsernodeUtil
